import Mathlib

/-!
Verification of `beancount/reports/holdings_reports.py` (holdings reporting,
net-worth and OFX portfolio export pipeline).

The Python module is shallowly embedded below.  Python `Decimal` values are
modelled as `Rat`; `None` is modelled by `Option`; a raised exception is
modelled by an `Option`/`Except` failure result.  Functions of the module that
live in other beancount modules (the currency converter, the aggregator, the
decimal constructor `D`) are not part of the source file; they are modelled
from the specification and marked as such in their doc comments.
-/

/-- A holding, mirroring the `Holding` namedtuple used by
`holdings_reports.py`.  Every field is optional because the namedtuple is
built with `None` defaults (see `load_from_csv`). Decimals are `Rat`. -/
structure Holding where
  account : Option String
  number : Option Rat
  currency : Option String
  cost_currency : Option String
  cost_number : Option Rat
  price_number : Option Rat
  book_value : Option Rat
  market_value : Option Rat
  price_date : Option String
deriving Repr, DecidableEq

/-- The all-`None` holding: the `defaults_dict` of `load_from_csv`. -/
def defaultHolding : Holding :=
  ⟨none, none, none, none, none, none, none, none, none⟩

/-- From `is_mutual_fund` (holdings_reports.py:275-283): the source evaluates
`bool(re.match('MUTF.*:', ticker))`.  `re.match` anchors at the start of the
string; `.` does not match a newline; `.*` is an arbitrary run of
non-newline characters followed by a colon.  Hence the regex matches iff the
string starts with `MUTF` and some colon occurs at index at least 4 with no
newline before it. -/
def is_mutual_fund (ticker : String) : Bool :=
  "MUTF".data.isPrefixOf ticker.data &&
    ((ticker.data.drop 4).takeWhile (fun c => !(c == '\n'))).contains ':'

/-- Python truthiness of an optional string (`None` and `''` are falsy). -/
def truthyOpt (s : Option String) : Bool :=
  match s with
  | none => false
  | some t => !(t == "")

example : is_mutual_fund "MUTF:ABCDX" = true := by decide
example : is_mutual_fund "ABCD" = false := by decide
example : is_mutual_fund "MUTFX:" = true := by decide

/- ### C4 theorems -/

/-- C4 counterexample: the claim says `is_mutual_fund` returns true iff the
ticker starts with the literal `"MUTF:"`.  The ticker `"MUTFX:"` is classified
as a mutual fund by the code (the regex `MUTF.*:` matches) although it does
not start with `"MUTF:"`, so the claim as stated is false. -/
theorem c4_mutf_colon_not_immediate :
    is_mutual_fund "MUTFX:" = true ∧
      "MUTF:".data.isPrefixOf "MUTFX:".data = false := by
  decide

/-- Helper: a member of `takeWhile p l` splits `l` with only `p`-satisfying
elements before it. -/
theorem mem_takeWhile_split {α : Type} (p : α → Bool) (c : α) :
    ∀ l : List α, c ∈ l.takeWhile p →
      ∃ m r, l = m ++ c :: r ∧ ∀ x ∈ m, p x = true := by
  intro l
  induction l with
  | nil => intro h; simp [List.takeWhile] at h
  | cons x xs ih =>
    intro h
    by_cases hp : p x = true
    · rw [List.takeWhile_cons_of_pos hp] at h
      rcases List.mem_cons.mp h with hcx | hmem
      · exact ⟨[], xs, by simp [hcx], by simp⟩
      · rcases ih hmem with ⟨m, r, hsplit, hall⟩
        refine ⟨x :: m, r, by simp [hsplit], ?_⟩
        intro y hy
        rcases List.mem_cons.mp hy with hyx | hym
        · rw [hyx]; exact hp
        · exact hall y hym
    · rw [List.takeWhile_cons_of_neg hp] at h
      simp at h

/-- Helper: an element satisfying `p`, appended after a `p`-satisfying run,
is a member of the `takeWhile`. -/
theorem mem_takeWhile_append {α : Type} (p : α → Bool) (c : α) (hc : p c = true) :
    ∀ (m r : List α), (∀ x ∈ m, p x = true) → c ∈ (m ++ c :: r).takeWhile p := by
  intro m
  induction m with
  | nil =>
    intro r _
    rw [List.nil_append, List.takeWhile_cons_of_pos hc]
    exact List.mem_cons_self c _
  | cons x xs ih =>
    intro r hall
    have hx : p x = true := hall x (List.mem_cons_self x xs)
    have hxs : ∀ y ∈ xs, p y = true := fun y hy => hall y (List.mem_cons_of_mem x hy)
    rw [List.cons_append, List.takeWhile_cons_of_pos hx]
    exact List.mem_cons_of_mem x (ih r hxs)

/-- C4 (amended): `is_mutual_fund` returns true iff the ticker starts with the
literal prefix `MUTF` followed by an arbitrary run of non-newline characters
and then a colon (so the colon need not immediately follow `MUTF`); in
particular `MUTF:ABCDX` classifies as a mutual fund and `ABCD` does not. -/
theorem c4_mutf_pattern_characterization :
    (∀ t : String, is_mutual_fund t = true ↔
      ∃ m r : List Char, t.data = "MUTF".data ++ m ++ ':' :: r ∧ '\n' ∉ m) ∧
    is_mutual_fund "MUTF:ABCDX" = true ∧ is_mutual_fund "ABCD" = false := by
  refine ⟨?_, by decide, by decide⟩
  have hlen : "MUTF".data.length = 4 := rfl
  intro t
  constructor
  · intro h
    rcases (Bool.and_eq_true _ _).mp h with ⟨h1, h2⟩
    rcases List.isPrefixOf_iff_prefix.mp h1 with ⟨s, hs⟩
    have hdrop : t.data.drop 4 = s := by
      have h4 : ("MUTF".data ++ s).drop 4 = s := by
        rw [← hlen]; exact List.drop_left _ _
      rw [hs] at h4; exact h4
    have hmem : ':' ∈ (t.data.drop 4).takeWhile (fun c => !(c == '\n')) := by
      simpa using h2
    rcases mem_takeWhile_split _ _ _ hmem with ⟨m, r, hsplit, hall⟩
    refine ⟨m, r, ?_, ?_⟩
    · rw [← hs, List.append_assoc]
      rw [hdrop] at hsplit
      rw [hsplit]
    · intro hmm
      have := hall '\n' hmm
      simp at this
  · rintro ⟨m, r, hsplit, hnl⟩
    apply (Bool.and_eq_true _ _).mpr
    constructor
    · apply List.isPrefixOf_iff_prefix.mpr
      exact ⟨m ++ ':' :: r, by rw [hsplit, List.append_assoc]⟩
    · have hdrop : t.data.drop 4 = m ++ ':' :: r := by
        have h4 : ("MUTF".data ++ (m ++ ':' :: r)).drop 4 = m ++ ':' :: r := by
          rw [← hlen]; exact List.drop_left _ _
        rw [hsplit, List.append_assoc, h4]
      rw [hdrop]
      have hmem : ':' ∈ (m ++ ':' :: r).takeWhile (fun c => !(c == '\n')) := by
        apply mem_takeWhile_append _ _ (by decide)
        intro x hx
        have hxne : x ≠ '\n' := fun hEq => hnl (hEq ▸ hx)
        simp [hxne]
      simpa using hmem


/- ### Generic list helpers used across the development -/

/-- Count of an element in a filtered list. -/
theorem count_filter_eq {α : Type} [DecidableEq α] (p : α → Bool) (a : α)
    (l : List α) : (l.filter p).count a = if p a then l.count a else 0 := by
  induction l with
  | nil => simp
  | cons x xs ih =>
    by_cases hp : p x = true
    · rw [List.filter_cons_of_pos hp]
      by_cases hax : a = x
      · subst hax; simp [List.count_cons, ih, hp]
      · simp [List.count_cons, ih, hax]
    · rw [List.filter_cons_of_neg hp]
      by_cases hax : a = x
      · subst hax; simp [List.count_cons, ih, hp]
      · simp [List.count_cons, ih, hax]

/-- Python `str.lower()` restricted to ASCII case folding, which is all the
code relies on (`ticker.lower() == "cash"`). -/
def pyLower (s : String) : String := ⟨s.data.map Char.toLower⟩

/- ### Classifier of `export_holdings` (holdings_reports.py:317-354) -/

/-- Ticker lookup used by `export_holdings`: commodity metadata mapping a
currency code to an optional ticker string.  In the Python code this is
`tickers.get(holding.currency, None)` where `tickers` was built by
`get_values_meta` without an explicit default, so "currency not a commodity"
and "commodity without ticker metadata" are both `None` here. -/
def tickerLookup (tk : String → Option String) (c : Option String) : Option String :=
  match c with
  | none => none
  | some s => tk s

/-- The classification loop of `export_holdings` (holdings_reports.py:321-328):
one pass appending each holding to exactly one of the three buckets
`(holdings_export, holdings_convert, holdings_ignore)`.
`isinstance(ticker, str) and ticker.lower() == "cash"` puts the holding in the
convert (cashlike) bucket; `elif ticker:` (a truthy, i.e. nonempty, string)
puts it in the export bucket; everything else is ignored. -/
def classifyLoop (tk : String → Option String) :
    List Holding → List Holding × List Holding × List Holding
  | [] => ([], [], [])
  | h :: hs =>
    let rest := classifyLoop tk hs
    match tickerLookup tk h.currency with
    | some t =>
      if pyLower t == "cash" then (rest.1, h :: rest.2.1, rest.2.2)
      else if t == "" then (rest.1, rest.2.1, h :: rest.2.2)
      else (h :: rest.1, rest.2.1, rest.2.2)
    | none => (rest.1, rest.2.1, h :: rest.2.2)

/-- Predicate: the code routes the holding to the export bucket (a ticker is
present, not case-insensitively "cash", and nonempty). -/
def isExportBucket (tk : String → Option String) (h : Holding) : Bool :=
  match tickerLookup tk h.currency with
  | some t => !(pyLower t == "cash") && !(t == "")
  | none => false

/-- Predicate: the code routes the holding to the cashlike (convert) bucket. -/
def isCashBucket (tk : String → Option String) (h : Holding) : Bool :=
  match tickerLookup tk h.currency with
  | some t => pyLower t == "cash"
  | none => false

/-- Predicate: the code routes the holding to the ignored bucket (no ticker
defined for the currency, or an empty non-cash ticker). -/
def isIgnoreBucket (tk : String → Option String) (h : Holding) : Bool :=
  match tickerLookup tk h.currency with
  | some t => !(pyLower t == "cash") && (t == "")
  | none => true

/- ### C7 theorems -/

/-- C7 counterexample: the claim says a holding whose ticker is present and
(case-insensitively) different from "cash" is exportable.  With commodity
`"EEE"` carrying the present-but-empty ticker `""` (which is non-cash), the
code puts the holding in the ignored bucket, not the exportable one, because
`elif ticker:` is false for the empty string. -/
theorem c7_empty_ticker_ignored :
    (fun c => if c = "EEE" then some "" else none : String → Option String) "EEE"
        = some "" ∧
    (pyLower "" == "cash") = false ∧
    classifyLoop (fun c => if c = "EEE" then some "" else none)
        [{ defaultHolding with currency := some "EEE" }] =
      ([], [], [{ defaultHolding with currency := some "EEE" }]) := by
  refine ⟨rfl, by decide, by decide⟩

/-- C7 (amended): `export_holdings` places each holding in exactly one of the
three buckets {exportable, cashlike, ignored}: cashlike when the ticker is
present and case-insensitively equals "cash", exportable when a ticker is
present, non-empty and non-cash, and ignored when no ticker is defined for
the holding's currency or the present non-cash ticker is the empty string;
the three buckets together contain every input holding exactly once. -/
theorem c7_classifier_partition (tk : String → Option String) (hs : List Holding) :
    (classifyLoop tk hs).1 = hs.filter (isExportBucket tk) ∧
    (classifyLoop tk hs).2.1 = hs.filter (isCashBucket tk) ∧
    (classifyLoop tk hs).2.2 = hs.filter (isIgnoreBucket tk) ∧
    (∀ h : Holding,
      (isExportBucket tk h).toNat + (isCashBucket tk h).toNat +
        (isIgnoreBucket tk h).toNat = 1) ∧
    (∀ h : Holding,
      (classifyLoop tk hs).1.count h + (classifyLoop tk hs).2.1.count h +
        (classifyLoop tk hs).2.2.count h = hs.count h) := by
  have hexh : ∀ h : Holding,
      (isExportBucket tk h).toNat + (isCashBucket tk h).toNat +
        (isIgnoreBucket tk h).toNat = 1 := by
    intro h
    unfold isExportBucket isCashBucket isIgnoreBucket
    cases htk : tickerLookup tk h.currency with
    | none => simp
    | some t =>
      by_cases hc : (pyLower t == "cash") = true
      · simp [hc]
      · by_cases he : (t == "") = true
        · simp [hc, he]
        · simp [hc, he]
  have hfil : ∀ hs' : List Holding,
      (classifyLoop tk hs').1 = hs'.filter (isExportBucket tk) ∧
      (classifyLoop tk hs').2.1 = hs'.filter (isCashBucket tk) ∧
      (classifyLoop tk hs').2.2 = hs'.filter (isIgnoreBucket tk) := by
    intro hs'
    induction hs' with
    | nil => exact ⟨rfl, rfl, rfl⟩
    | cons h t ih =>
      rcases ih with ⟨ih1, ih2, ih3⟩
      cases htk : tickerLookup tk h.currency with
      | none =>
        simp [classifyLoop, htk, List.filter_cons, ih1, ih2, ih3,
          isExportBucket, isCashBucket, isIgnoreBucket]
      | some s =>
        by_cases h1 : (pyLower s == "cash") = true
        · simp [classifyLoop, htk, List.filter_cons, ih1, ih2, ih3,
            isExportBucket, isCashBucket, isIgnoreBucket, h1]
        · by_cases h2 : (s == "") = true
          · simp [classifyLoop, htk, List.filter_cons, ih1, ih2, ih3,
              isExportBucket, isCashBucket, isIgnoreBucket, h1, h2]
          · simp [classifyLoop, htk, List.filter_cons, ih1, ih2, ih3,
              isExportBucket, isCashBucket, isIgnoreBucket, h1, h2]
  rcases hfil hs with ⟨h1, h2, h3⟩
  refine ⟨h1, h2, h3, hexh, ?_⟩
  intro h
  rw [h1, h2, h3, count_filter_eq, count_filter_eq, count_filter_eq]
  have := hexh h
  by_cases he : isExportBucket tk h = true <;>
    by_cases hc : isCashBucket tk h = true <;>
      by_cases hi : isIgnoreBucket tk h = true <;>
        simp [he, hc, hi] at this ⊢

/- ### HoldingsReport option validation (holdings_reports.py:236-239) -/

/-- The option check performed in `HoldingsReport.__init__`
(holdings_reports.py:236-239): `if self.args.relative and not
self.args.currency: self.parser.error(...)`.  `parser.error` aborts, which is
modelled as an `Except.error` carrying the message. -/
def holdingsReportCheckArgs (relative : Bool) (currency : Option String) :
    Except String Unit :=
  if relative && !(truthyOpt currency) then
    Except.error "--relative needs to have --currency set"
  else Except.ok ()

/-- Modelled from the spec: report construction runs the option check first
and table generation happens only afterwards on a successfully constructed
report, so an option error is surfaced before any entries are processed.
The table generator is abstract: the check never looks at it. -/
def holdingsReportTable {α β : Type} (genTable : α → β) (relative : Bool)
    (currency : Option String) (entries : α) : Except String β :=
  (holdingsReportCheckArgs relative currency).map (fun _ => genTable entries)

/- ### C8 theorem -/

/-- C8: requesting a relative holdings report without a target currency makes
report construction fail with the configuration error, for every table
generator and every entries value — the generator is never invoked and no
table is produced. -/
theorem c8_relative_without_currency_errors {α β : Type} (genTable : α → β)
    (entries : α) :
    holdingsReportTable genTable true none entries =
      Except.error "--relative needs to have --currency set" := by
  rfl

/- ### CSV loading (`load_from_csv`, holdings_reports.py:171-216) -/

/-- The attribute of a `Holding` a recognized CSV column maps to. -/
inductive HField where
  | account | number | currency | cost_currency | cost_number
  | price_number | book_value | market_value | price_date
deriving Repr, DecidableEq

/-- Modelled from the spec: the decimal constructor `D` of
`beancount.core.amount` is not part of the source file; per the spec numeric
columns are parsed "via decimal parsing".  We model a plain decimal literal
parser (optional sign, digits, optional fractional part); anything else is a
parse failure (a raised exception). -/
def parseDecimal (s : String) : Option Rat :=
  let step := fun (acc : Option Nat) (c : Char) =>
    match acc with
    | none => none
    | some n => if c.isDigit then some (n * 10 + (c.toNat - 48)) else none
  let digits := fun (cs : List Char) =>
    if cs.isEmpty then none else cs.foldl step (some 0)
  let core := fun (cs : List Char) =>
    let intPart := cs.takeWhile (fun c => !(c == '.'))
    let rest := cs.dropWhile (fun c => !(c == '.'))
    match rest with
    | [] => (digits intPart).map (fun n => (n : Rat))
    | _ :: frac =>
      match digits intPart, digits frac with
      | some n, some f => some ((n : Rat) + (f : Rat) / ((10 : Rat) ^ frac.length))
      | _, _ => none
  match s.data with
  | '-' :: cs => (core cs).map (fun q => -q)
  | '+' :: cs => core cs
  | cs => core cs

/-- The `column_spec` of `load_from_csv` (holdings_reports.py:179-191) as a
name lookup: header name to target attribute; `none` models a `KeyError`.
The boolean is true when the column has the converter `D`. -/
def columnLookup (name : String) : Option (HField × Bool) :=
  if name = "Account" then some (HField.account, false)
  else if name = "Units" then some (HField.number, true)
  else if name = "Currency" then some (HField.currency, false)
  else if name = "Cost Currency" then some (HField.cost_currency, false)
  else if name = "Average Cost" then some (HField.cost_number, true)
  else if name = "Price" then some (HField.price_number, true)
  else if name = "Book Value" then some (HField.book_value, true)
  else if name = "Market Value" then some (HField.market_value, true)
  else if name = "Price Date" then some (HField.price_date, false)
  else none

/-- Set one `Holding` attribute from a CSV cell, applying the decimal
converter when the column has one (a failed conversion is a raised
exception, hence `Except.error`). -/
def setHoldingField (h : Holding) (fc : HField × Bool) (value : String) :
    Except String Holding :=
  match fc with
  | (f, conv) =>
    if conv then
      match parseDecimal value with
      | none => Except.error "ConversionSyntax"
      | some q =>
        match f with
        | HField.number => Except.ok { h with number := some q }
        | HField.cost_number => Except.ok { h with cost_number := some q }
        | HField.price_number => Except.ok { h with price_number := some q }
        | HField.book_value => Except.ok { h with book_value := some q }
        | HField.market_value => Except.ok { h with market_value := some q }
        | HField.account => Except.ok { h with account := none }
        | HField.currency => Except.ok { h with currency := none }
        | HField.cost_currency => Except.ok { h with cost_currency := none }
        | HField.price_date => Except.ok { h with price_date := none }
    else
      match f with
      | HField.account => Except.ok { h with account := some value }
      | HField.currency => Except.ok { h with currency := some value }
      | HField.cost_currency => Except.ok { h with cost_currency := some value }
      | HField.price_date => Except.ok { h with price_date := some value }
      | HField.number => Except.ok { h with number := none }
      | HField.cost_number => Except.ok { h with cost_number := none }
      | HField.price_number => Except.ok { h with price_number := none }
      | HField.book_value => Except.ok { h with book_value := none }
      | HField.market_value => Except.ok { h with market_value := none }

/-- The header loop of `load_from_csv` (holdings_reports.py:200-208): look
every header name up in `column_dict`, collecting the `(attr, converter)`
pairs, and raise `IOError("Invalid file contents for holdings")` at the
first `KeyError` — for any unrecognized name, wherever it occurs. -/
def headerConverters : List String → Except String (List (HField × Bool))
  | [] => Except.ok []
  | name :: rest =>
    match columnLookup name with
    | none => Except.error "Invalid file contents for holdings"
    | some fc =>
      match headerConverters rest with
      | Except.error e => Except.error e
      | Except.ok v => Except.ok (fc :: v)

/-- One data row of `load_from_csv` (holdings_reports.py:210-216): the row is
zipped against the collected converters (`zip` truncates to the shorter
side), starting from the all-`None` defaults. -/
def parseCsvLine (acs : List (HField × Bool)) (line : List String) :
    Except String Holding :=
  (List.zip acs line).foldlM (fun h fcv => setHoldingField h fcv.1 fcv.2)
    defaultHolding

/-- The data rows of `load_from_csv`, in order. -/
def parseCsvRows (acs : List (HField × Bool)) :
    List (List String) → Except String (List Holding)
  | [] => Except.ok []
  | line :: rest =>
    match parseCsvLine acs line with
    | Except.error e => Except.error e
    | Except.ok h =>
      match parseCsvRows acs rest with
      | Except.error e => Except.error e
      | Except.ok hs => Except.ok (h :: hs)

/-- `load_from_csv` (holdings_reports.py:171-216), with the CSV already split
into a header row and data rows. -/
def load_from_csv (header : List String) (rows : List (List String)) :
    Except String (List Holding) :=
  match headerConverters header with
  | Except.error e => Except.error e
  | Except.ok acs => parseCsvRows acs rows

/- ### C3 theorems -/

/-- C3 counterexample: the claim says a header containing an extra
unrecognized column name alongside recognized ones still loads successfully.
The header `["Account", "Bogus"]` (with no data rows) raises the format
error: the header loop raises for any unrecognized name, not only in
"required positions". -/
theorem c3_unrecognized_column_errors :
    load_from_csv ["Account", "Bogus"] [] =
      Except.error "Invalid file contents for holdings" := by
  rfl

/-- C3 (amended): the loader requires every header column name to be in the
recognized set: a header containing any unrecognized name — in any position —
raises the format error `IOError("Invalid file contents for holdings")`,
while a header made up solely of recognized names passes the header check and
loads (an empty body yields an empty holdings list). -/
theorem c3_header_recognition (header : List String) :
    ((∃ c ∈ header, columnLookup c = none) →
      ∀ rows, load_from_csv header rows =
        Except.error "Invalid file contents for holdings") ∧
    ((∀ c ∈ header, columnLookup c ≠ none) →
      load_from_csv header [] = Except.ok []) := by
  have herr : ∀ hd : List String, (∃ c ∈ hd, columnLookup c = none) →
      headerConverters hd = Except.error "Invalid file contents for holdings" := by
    intro hd
    induction hd with
    | nil => rintro ⟨c, hc, _⟩; simp at hc
    | cons x xs ih =>
      rintro ⟨c, hc, hnone⟩
      rcases List.mem_cons.mp hc with hcx | hmem
      · subst hcx
        simp [headerConverters, hnone]
      · cases hx : columnLookup x with
        | none => simp [headerConverters, hx]
        | some fc =>
          have := ih ⟨c, hmem, hnone⟩
          simp [headerConverters, hx, this]
  have hok : ∀ hd : List String, (∀ c ∈ hd, columnLookup c ≠ none) →
      ∃ v, headerConverters hd = Except.ok v := by
    intro hd
    induction hd with
    | nil => exact fun _ => ⟨[], rfl⟩
    | cons x xs ih =>
      intro hall
      have hx := hall x (List.mem_cons_self x xs)
      cases hcx : columnLookup x with
      | none => exact absurd hcx hx
      | some fc =>
        rcases ih (fun c hc => hall c (List.mem_cons_of_mem x hc)) with ⟨v, hv⟩
        exact ⟨fc :: v, by simp [headerConverters, hcx, hv]⟩
  constructor
  · intro hx rows
    unfold load_from_csv
    rw [herr header hx]
  · intro hall
    rcases hok header hall with ⟨v, hv⟩
    unfold load_from_csv
    rw [hv]
    rfl

/-- C3 witness: at the concrete header `["Units", "Account"]` with an
unrecognized name `["Units", "Oops"]` the two parts of
`c3_header_recognition` apply. -/
theorem c3_header_recognition_witness :
    load_from_csv ["Units", "Oops"] [["1"]] =
        Except.error "Invalid file contents for holdings" ∧
    load_from_csv ["Units", "Account"] [] = Except.ok [] := by
  constructor
  · exact (c3_header_recognition ["Units", "Oops"]).1
      ⟨"Oops", by decide, by rfl⟩ [["1"]]
  · exact (c3_header_recognition ["Units", "Account"]).2
      (by intro c hc; fin_cases hc <;> simp [columnLookup])

/- ### Currency converter and aggregator (external collaborators) -/

/-- Membership-adding set insertion, modelling Python `set.add` /
first-seen-order key collection on lists. -/
def addSet {α : Type} [DecidableEq α] (l : List α) (x : α) : List α :=
  if x ∈ l then l else l ++ [x]

/-- Modelled from the spec (section 4.1): `beancount.ops.holdings.convert_to_currency`
is not part of the source file.  Per the spec, a holding whose `cost_currency`
already equals the target passes through unchanged; otherwise a rate
`cost_currency -> target` is looked up in the price map; if found,
`cost_currency` is replaced and `cost_number`, `price_number`, `book_value`
and `market_value` are rescaled by the rate with `currency` untouched; if no
rate exists the holding passes through unchanged. -/
def convertOne (pm : String → String → Option Rat) (target : String)
    (h : Holding) : Holding :=
  if h.cost_currency = some target then h
  else
    match h.cost_currency with
    | none => h
    | some cc =>
      match pm cc target with
      | none => h
      | some rate =>
        { h with
          cost_currency := some target
          cost_number := h.cost_number.map (fun q => q * rate)
          price_number := h.price_number.map (fun q => q * rate)
          book_value := h.book_value.map (fun q => q * rate)
          market_value := h.market_value.map (fun q => q * rate) }

/-- Modelled from the spec (section 4.1): conversion of a holdings list is the
elementwise conversion. -/
def convert_to_currency (pm : String → String → Option Rat) (target : String)
    (hs : List Holding) : List Holding :=
  hs.map (convertOne pm target)

/-- Sum of the present values in a list of optional numbers; `none` when no
value is present.  (Used only by the spec-modelled aggregator below.) -/
def optSum : List (Option Rat) → Option Rat
  | [] => none
  | none :: xs => optSum xs
  | some q :: xs =>
    match optSum xs with
    | none => some q
    | some r => some (q + r)

/-- Whether all elements of the list are equal (used for the aggregator's
shared-currency test). -/
def allSame {α : Type} [DecidableEq α] : List α → Bool
  | [] => true
  | x :: xs => xs.all (fun y => y = x)

/-- Modelled from the spec (section 4.2): combining one partition of holdings.
Additive fields are summed where all contributing holdings share the same
`currency`/`cost_currency`; on a heterogeneous merge the shared field is
cleared to null and only monetary totals are kept.  `cost_number` and
`price_number` are recomputed as `book_value / number` and
`market_value / number` when `number` is defined and nonzero, else null.
The spec does not assign an account to an aggregate, so it is null here. -/
def aggregateGroup (hs : List Holding) : Holding :=
  let sameCur := allSame (hs.map (fun h => h.currency))
  let sameCost := allSame (hs.map (fun h => h.cost_currency))
  let number := if sameCur then optSum (hs.map (fun h => h.number)) else none
  let book_value := optSum (hs.map (fun h => h.book_value))
  let market_value := optSum (hs.map (fun h => h.market_value))
  let currency := if sameCur then (hs.head?.map (fun h => h.currency)).join else none
  let cost_currency :=
    if sameCost then (hs.head?.map (fun h => h.cost_currency)).join else none
  let cost_number :=
    match number, book_value with
    | some n, some b => if n = 0 then none else some (b / n)
    | _, _ => none
  let price_number :=
    match number, market_value with
    | some n, some m => if n = 0 then none else some (m / n)
    | _, _ => none
  ⟨none, number, currency, cost_currency, cost_number, price_number,
    book_value, market_value, none⟩

/-- Modelled from the spec (section 4.2):
`beancount.ops.holdings.aggregate_holdings_by` partitions by the key
function, first-seen key order, and combines each partition. -/
def aggregate_holdings_by {K : Type} [DecidableEq K] (key : Holding → K)
    (hs : List Holding) : List Holding :=
  let keys := hs.foldl (fun acc h => addSet acc (key h)) []
  keys.map (fun k => aggregateGroup (hs.filter (fun h => key h = k)))

/- ### NetWorthReport.generate_table (holdings_reports.py:696-732) -/

/-- One iteration of the loop over operating currencies in
`NetWorthReport.generate_table` (holdings_reports.py:700-726).  The state is
the pair `(holdings_list, net_worths)`.  The source *reassigns*
`holdings_list` inside the loop (lines 714 and 717), so a later iteration
converts the previous iteration's aggregated list rather than the original
holdings; this function reproduces that mutation faithfully. -/
def netWorthStep (pm : String → String → Option Rat)
    (st : List Holding × List (String × Option Rat)) (currency : String) :
    List Holding × List (String × Option Rat) :=
  let currency_holdings_list := convert_to_currency pm currency st.1
  if currency_holdings_list.isEmpty then st
  else
    let hl1 := aggregate_holdings_by (fun h => h.cost_currency)
      currency_holdings_list
    let hl2 := hl1.filter (fun h => truthyOpt h.currency && truthyOpt h.cost_currency)
    match hl2 with
    | [] => (hl2, st.2)
    | h0 :: _ => (hl2, st.2 ++ [(currency, h0.market_value)])

/-- `NetWorthReport.generate_table`: fold the loop over the configured
operating currencies and return the `net_worths` rows. -/
def netWorthTable (pm : String → String → Option Rat)
    (operating : List String) (holdings0 : List Holding) :
    List (String × Option Rat) :=
  (operating.foldl (netWorthStep pm) (holdings0, [])).2

/-- Price map for the C2 failing input: C->A at 2, C->B at 3, A->B at 10. -/
def pmC2 (a b : String) : Option Rat :=
  if a = "C" ∧ b = "A" then some 2
  else if a = "C" ∧ b = "B" then some 3
  else if a = "A" ∧ b = "B" then some 10
  else none

/-- The single holding of the C2 failing input: one unit of commodity `HOO`
valued in cost currency `C` with market value 100. -/
def holdingC2 : Holding :=
  ⟨some "Assets:Inv", some 1, some "HOO", some "C", some 100, some 100,
    some 100, some 100, none⟩

/- ### C2 theorem -/

/-- C2: the claim says the value reported for each operating currency is
computed from the original input holdings and is independent of which other
operating currencies are configured and of their order.  On the failing input
(`holdingC2` with price map `pmC2`) the code reports `B ↦ 2000` when the
operating currencies are `[A, B]` — the second iteration converts the
aggregate produced for `A` (rate `A->B` = 10 applied to 200) because the
loop reassigns `holdings_list` — but reports `B ↦ 300` (rate `C->B` = 3
applied to the original holding) when `B` is the only operating currency. -/
theorem c2_networth_not_independent :
    netWorthTable pmC2 ["A", "B"] [holdingC2] =
        [("A", some 200), ("B", some 2000)] ∧
    netWorthTable pmC2 ["B"] [holdingC2] = [("B", some 300)] := by
  constructor
  · simp [netWorthTable, netWorthStep, convert_to_currency, convertOne,
      pmC2, holdingC2, aggregate_holdings_by, aggregateGroup, addSet, allSame,
      optSum, truthyOpt]
    norm_num
  · simp [netWorthTable, netWorthStep, convert_to_currency, convertOne,
      pmC2, holdingC2, aggregate_holdings_by, aggregateGroup, addSet, allSame,
      optSum, truthyOpt]
    norm_num

/- ### OFX export pipeline (`ExportPortfolioReport.render_ofx`,
holdings_reports.py:483-599) -/

/-- The value of `tickers.get(holding.currency, None)` in `render_ofx`
(holdings_reports.py:489 and 504): the map was built by `get_values_meta`
with `default=undefined`, so a commodity that exists but has no ticker
metadata yields the sentinel `undefined` (`undef` here), a currency that is
not a commodity at all yields `None` (`noCommodity`), and otherwise the
metadata string itself. -/
inductive Ticker where
  | noCommodity
  | undef
  | val (s : String)
deriving Repr, DecidableEq

/-- Lookup of `render_ofx`: `None` currency is not a key of the map. -/
def tickerOf (tk : String → Ticker) (c : Option String) : Ticker :=
  match c with
  | none => Ticker.noCommodity
  | some s => tk s

/-- The skip condition of `render_ofx` (holdings_reports.py:509-511):
`holding.currency == holding.cost_currency or holding.cost_number is None
or not ticker or ticker is undefined`.  `not ticker` is Python falsiness:
true for `None` and for the empty string; the `undefined` sentinel object is
truthy, hence the extra `is undefined` test. -/
def skipHolding (tk : String → Ticker) (h : Holding) : Bool :=
  decide (h.currency = h.cost_currency) || h.cost_number.isNone ||
    (match tickerOf tk h.currency with
     | Ticker.noCommodity => true
     | Ticker.undef => true
     | Ticker.val s => s == "")

/-- One OFX transaction, carrying the placeholder values substituted into the
`TRANSACTION` template (holdings_reports.py:419-440). -/
structure OfxTxn where
  txntype : String
  fitid : Nat
  dttrade : String
  memo : String
  uniqueid : String
  units : Rat
  unitprice : Rat
  fee : Rat
  total : Rat
  buytype : String
deriving Repr, DecidableEq

/-- The transaction built for one individually exported holding
(holdings_reports.py:523-537): `txntype` from the mutual-fund test on the
ticker, `fitid = index + 1`, memo = the account when promiscuous (Python
formats `None` as `"None"`), `units = number`, `unitprice = cost_number`,
`fee = ZERO`, `total = -(units * unitprice + fee)`, `buytype = 'BUY'`. -/
def mkExportTxn (promiscuous : Bool) (dttrade : String) (i : Nat) (s : String)
    (n u : Rat) (h : Holding) : OfxTxn :=
  { txntype := if is_mutual_fund s then "BUYMF" else "BUYSTOCK"
    fitid := i + 1
    dttrade := dttrade
    memo := if promiscuous then h.account.getD "None" else ""
    uniqueid := s
    units := n
    unitprice := u
    fee := 0
    total := -(n * u + 0)
    buytype := "BUY" }

/-- The body of the loop of `render_ofx` for one non-skipped holding: the
skip condition guarantees a present currency, a present cost and a nonempty
ticker string, in which case the transaction and its
`(currency, ticker, is_mutual_fund ticker)` security triple are built; a
holding with an undefined `number` makes `units * unitprice` raise in
Python, modelled by `none`. -/
def exportItem (promiscuous : Bool) (dttrade : String) (i : Nat)
    (cur : Option String) (t : Ticker) (h : Holding) :
    Option (OfxTxn × (String × String × Bool)) :=
  match cur, t, h.number, h.cost_number with
  | some c, Ticker.val s, some n, some u =>
    some (mkExportTxn promiscuous dttrade i s n u h, (c, s, is_mutual_fund s))
  | _, _, _, _ => none

/-- The per-holding loop of `render_ofx` (holdings_reports.py:502-537),
carrying the running enumeration index: for each holding the ticker is
looked up, a skipped holding goes to `skipped_holdings`, and otherwise the
transaction and security triple of `exportItem` are accumulated. -/
def exportLoop (tk : String → Ticker) (promiscuous : Bool) (dttrade : String) :
    Nat → List Holding →
      Option (List (OfxTxn × (String × String × Bool)) × List Holding)
  | _, [] => some ([], [])
  | i, h :: hs =>
    if skipHolding tk h then
      match exportLoop tk promiscuous dttrade (i + 1) hs with
      | none => none
      | some (ps, sk) => some (ps, h :: sk)
    else
      match exportItem promiscuous dttrade i h.currency (tickerOf tk h.currency) h with
      | none => none
      | some pr =>
        match exportLoop tk promiscuous dttrade (i + 1) hs with
        | none => none
        | some (ps, sk) => some (pr :: ps, sk)

/-- Python `sum()` over a generator of optional decimals: the empty sum is
the integer 0, and adding `None` raises (modelled by `none`). -/
def strictSum : List (Option Rat) → Option Rat
  | [] => some 0
  | none :: _ => none
  | some q :: xs =>
    match strictSum xs with
    | none => none
    | some r => some (q + r)

/-- Decimal division where a zero divisor raises (`book_value /
market_value` at holdings_reports.py:567). -/
def safeDiv (a b : Rat) : Option Rat :=
  if b = 0 then none else some (a / b)

/-- The fixed cash-equivalent identifier (holdings_reports.py:480). -/
def CASH_EQUIVALENT_CURRENCY : String := "VMMXX"

/-- The fixed cash-equivalent mutual-fund flag used for the transaction type
(holdings_reports.py:481). -/
def CASH_EQUIVALENT_MFUND : Bool := true

/-- Insertion into a sorted list with a boolean comparator. -/
def sortedInsert {α : Type} (le : α → α → Bool) (x : α) : List α → List α
  | [] => [x]
  | y :: ys => if le x y then x :: y :: ys else y :: sortedInsert le x ys

/-- Insertion sort with a boolean comparator, modelling Python `sorted`
applied to a set of distinct tuples (any comparison sort agrees on distinct
elements under a total order). -/
def isort {α : Type} (le : α → α → Bool) : List α → List α
  | [] => []
  | x :: xs => sortedInsert le x (isort le xs)

/-- Lexicographic comparison of `(currency, ticker, mutual_fund)` triples:
Python tuple comparison with string and boolean components. -/
def tripleLeB (a b : String × String × Bool) : Bool :=
  if a.1 < b.1 then true
  else if b.1 < a.1 then false
  else if a.2.1 < b.2.1 then true
  else if b.2.1 < a.2.1 then false
  else !a.2.2 || b.2.2

/-- The result of the transaction-building phase of `render_ofx`:
the individually exported transactions with their security triples, the
skipped holdings, the optional cash-equivalent transaction, the collected
commodity set (insertion order) and the sorted security list. -/
structure OfxData where
  exportPairs : List (OfxTxn × (String × String × Bool))
  skipped : List Holding
  cashTxn : Option OfxTxn
  commodities : List (String × String × Bool)
  securities : List (String × String × Bool)
deriving Repr, DecidableEq

/-- The transaction/security computation of `render_ofx`
(holdings_reports.py:498-587), up to but not including string assembly.
After the per-holding loop, if an operating currency is configured
(holdings_reports.py:545-575) the skipped holdings are converted to the
first operating currency, those whose `cost_currency` matches are kept,
their book and market values are summed (`sum` raises on `None`), and a
cash-equivalent transaction is synthesized with `fitid = index + 1` where
`index` is the Python loop variable: `len - 1` after a nonempty loop, `0`
for an empty holdings list.  `unitprice = quantize(book/market)` raises on a
zero `market_value`.  The security triple recorded for it is
`(VMMXX, VMMXX, False)` (holdings_reports.py:573-575).  The security list is
the sorted set of collected triples (holdings_reports.py:581). -/
def renderOfxData (tk : String → Ticker) (promiscuous : Bool) (dttrade : String)
    (pm : String → String → Option Rat) (operating : List String)
    (quantize : Rat → String → Rat) (hs : List Holding) : Option OfxData :=
  match exportLoop tk promiscuous dttrade 0 hs with
  | none => none
  | some (pairs, skipped) =>
    let comm0 := (pairs.map (fun pr => pr.2)).foldl addSet []
    match operating with
    | [] =>
      some ⟨pairs, skipped, none, comm0, isort tripleLeB comm0⟩
    | cash_currency :: _ =>
      let converted := convert_to_currency pm cash_currency skipped
      let included := converted.filter
        (fun h => h.cost_currency == some cash_currency)
      match strictSum (included.map (fun h => h.book_value)),
          strictSum (included.map (fun h => h.market_value)) with
      | some book_value, some market_value =>
        match safeDiv book_value market_value with
        | none => none
        | some ratio =>
          let units := quantize market_value cash_currency
          let unitprice := quantize ratio cash_currency
          let txn : OfxTxn :=
            { txntype := if CASH_EQUIVALENT_MFUND then "BUYMF" else "BUYSTOCK"
              fitid := (if hs.length = 0 then 0 else hs.length - 1) + 1
              dttrade := dttrade
              memo := ""
              uniqueid := CASH_EQUIVALENT_CURRENCY
              units := units
              unitprice := unitprice
              fee := 0
              total := -(units * unitprice + 0)
              buytype := "BUY" }
          let comm := addSet comm0
            (CASH_EQUIVALENT_CURRENCY, CASH_EQUIVALENT_CURRENCY, false)
          some ⟨pairs, skipped, some txn, comm, isort tripleLeB comm⟩
      | _, _ => none

/- ### C1 theorem -/

/-- C1 (code bug): on an input where no holding is excluded — a single
individually exported stock holding — and an operating currency configured,
the excluded holdings' total market value is the empty sum 0, and the code
unconditionally evaluates `book_value / market_value`, raising a
division-by-zero error: the export aborts (result `none`) instead of
completing without a cash-equivalent transaction as the claim states. -/
theorem c1_cash_equivalent_division_crash :
    renderOfxData
      (fun c => if c = "HOO" then Ticker.val "HOO" else Ticker.noCommodity)
      false "DT" (fun _ _ => none) ["USD"] (fun x _ => x)
      [⟨some "Assets:Inv", some 2, some "HOO", some "USD", some 3, some 4,
        some 6, some 8, none⟩] = none := by
  simp [renderOfxData, exportLoop, exportItem, skipHolding, tickerOf,
    mkExportTxn, convert_to_currency, strictSum, safeDiv]

/- ### Sortedness and set lemmas for the security list -/

/-- `sortedInsert` produces a permutation of consing the element. -/
theorem sortedInsert_perm {α : Type} (le : α → α → Bool) (x : α) :
    ∀ l : List α, (sortedInsert le x l).Perm (x :: l) := by
  intro l
  induction l with
  | nil => simp [sortedInsert]
  | cons y ys ih =>
    by_cases hle : le x y = true
    · simp [sortedInsert, hle]
    · simp only [sortedInsert, hle]
      rw [if_neg (by simp [hle])]
      exact List.Perm.trans (List.Perm.cons y ih) (List.Perm.swap x y ys)

/-- `isort` permutes its input. -/
theorem isort_perm {α : Type} (le : α → α → Bool) :
    ∀ l : List α, (isort le l).Perm l := by
  intro l
  induction l with
  | nil => simp [isort]
  | cons x xs ih =>
    exact List.Perm.trans (sortedInsert_perm le x (isort le xs))
      (List.Perm.cons x ih)

/-- Membership in `isort` is membership in the input. -/
theorem mem_isort {α : Type} (le : α → α → Bool) (a : α) (l : List α) :
    a ∈ isort le l ↔ a ∈ l :=
  (isort_perm le l).mem_iff

/-- `isort` preserves duplicate-freeness. -/
theorem nodup_isort {α : Type} (le : α → α → Bool) (l : List α)
    (h : l.Nodup) : (isort le l).Nodup :=
  ((isort_perm le l).nodup_iff).mpr h

/-- Inserting into a pairwise-`le`-ordered list keeps it ordered, given a
total and transitive comparator. -/
theorem sortedInsert_pairwise {α : Type} (le : α → α → Bool)
    (htot : ∀ a b, le a b = true ∨ le b a = true)
    (htrans : ∀ a b c, le a b = true → le b c = true → le a c = true)
    (x : α) :
    ∀ l : List α, l.Pairwise (fun a b => le a b = true) →
      (sortedInsert le x l).Pairwise (fun a b => le a b = true) := by
  intro l
  induction l with
  | nil => intro _; simp [sortedInsert]
  | cons y ys ih =>
    intro hp
    rcases List.pairwise_cons.mp hp with ⟨hy, hys⟩
    by_cases hle : le x y = true
    · simp only [sortedInsert, if_pos hle]
      refine List.pairwise_cons.mpr ⟨?_, hp⟩
      intro z hz
      rcases List.mem_cons.mp hz with hzy | hzys
      · rw [hzy]; exact hle
      · exact htrans x y z hle (hy z hzys)
    · simp only [sortedInsert, if_neg hle]
      refine List.pairwise_cons.mpr ⟨?_, ih hys⟩
      intro z hz
      have hzmem := (sortedInsert_perm le x ys).mem_iff.mp hz
      rcases List.mem_cons.mp hzmem with hzx | hzys
      · rw [hzx]
        rcases htot x y with h1 | h1
        · exact absurd h1 hle
        · exact h1
      · exact hy z hzys

/-- `isort` output is pairwise ordered, given a total and transitive
comparator. -/
theorem isort_pairwise {α : Type} (le : α → α → Bool)
    (htot : ∀ a b, le a b = true ∨ le b a = true)
    (htrans : ∀ a b c, le a b = true → le b c = true → le a c = true) :
    ∀ l : List α, (isort le l).Pairwise (fun a b => le a b = true) := by
  intro l
  induction l with
  | nil => simp [isort]
  | cons x xs ih => exact sortedInsert_pairwise le htot htrans x _ ih

/-- The triple comparator, characterized as a lexicographic order
proposition. -/
theorem tripleLeB_iff (a b : String × String × Bool) :
    tripleLeB a b = true ↔
      (a.1 < b.1 ∨ (a.1 = b.1 ∧ (a.2.1 < b.2.1 ∨ (a.2.1 = b.2.1 ∧
        (a.2.2 = true → b.2.2 = true))))) := by
  unfold tripleLeB
  rcases lt_trichotomy a.1 b.1 with h1 | h1 | h1
  · simp [h1, le_of_lt h1]
  · have hn1 : ¬ a.1 < b.1 := by rw [h1]; exact lt_irrefl _
    have hn1' : ¬ b.1 < a.1 := by rw [h1]; exact lt_irrefl _
    rcases lt_trichotomy a.2.1 b.2.1 with h2 | h2 | h2
    · simp [hn1, hn1', h1, h2]
    · have hn2 : ¬ a.2.1 < b.2.1 := by rw [h2]; exact lt_irrefl _
      have hn2' : ¬ b.2.1 < a.2.1 := by rw [h2]; exact lt_irrefl _
      cases ha : a.2.2 <;> cases hb : b.2.2 <;>
        simp [hn1, hn1', hn2, hn2', h1, h2, ha, hb]
    · have hn2 : ¬ a.2.1 < b.2.1 := asymm h2
      simp only [hn1, hn1', hn2, h2, h1]
      simp [lt_irrefl, ne_of_gt h2]
  · have hn1 : ¬ a.1 < b.1 := asymm h1
    simp [hn1, h1, ne_of_gt h1, not_lt_of_lt h1]

/-- The triple comparator is total. -/
theorem tripleLeB_total (a b : String × String × Bool) :
    tripleLeB a b = true ∨ tripleLeB b a = true := by
  rw [tripleLeB_iff, tripleLeB_iff]
  rcases lt_trichotomy a.1 b.1 with h1 | h1 | h1
  · exact Or.inl (Or.inl h1)
  · rcases lt_trichotomy a.2.1 b.2.1 with h2 | h2 | h2
    · exact Or.inl (Or.inr ⟨h1, Or.inl h2⟩)
    · cases hb : b.2.2
      · cases ha : a.2.2
        · exact Or.inl (Or.inr ⟨h1, Or.inr ⟨h2, by simp⟩⟩)
        · exact Or.inr (Or.inr ⟨h1.symm, Or.inr ⟨h2.symm, by simp [ha]⟩⟩)
      · exact Or.inl (Or.inr ⟨h1, Or.inr ⟨h2, by simp [hb]⟩⟩)
    · exact Or.inr (Or.inr ⟨h1.symm, Or.inl h2⟩)
  · exact Or.inr (Or.inl h1)

/-- The triple comparator is transitive. -/
theorem tripleLeB_trans (a b c : String × String × Bool)
    (hab : tripleLeB a b = true) (hbc : tripleLeB b c = true) :
    tripleLeB a c = true := by
  rw [tripleLeB_iff] at hab hbc ⊢
  rcases hab with h1 | ⟨h1, hab2⟩
  · rcases hbc with h2 | ⟨h2, _⟩
    · exact Or.inl (lt_trans h1 h2)
    · exact Or.inl (h2 ▸ h1)
  · rcases hbc with h2 | ⟨h2, hbc2⟩
    · exact Or.inl (h1 ▸ h2)
    · refine Or.inr ⟨h1.trans h2, ?_⟩
      rcases hab2 with h3 | ⟨h3, hab3⟩
      · rcases hbc2 with h4 | ⟨h4, _⟩
        · exact Or.inl (lt_trans h3 h4)
        · exact Or.inl (h4 ▸ h3)
      · rcases hbc2 with h4 | ⟨h4, hbc3⟩
        · exact Or.inl (h3 ▸ h4)
        · exact Or.inr ⟨h3.trans h4, fun ha => hbc3 (hab3 ha)⟩

/-- The triple comparator implies currency order. -/
theorem tripleLeB_currency {a b : String × String × Bool}
    (h : tripleLeB a b = true) : a.1 ≤ b.1 := by
  rcases (tripleLeB_iff a b).mp h with h1 | ⟨h1, _⟩
  · exact le_of_lt h1
  · exact le_of_eq h1

/-- Membership in `addSet`. -/
theorem mem_addSet {α : Type} [DecidableEq α] (l : List α) (x a : α) :
    a ∈ addSet l x ↔ a ∈ l ∨ a = x := by
  unfold addSet
  by_cases hx : x ∈ l
  · simp only [if_pos hx]
    constructor
    · exact fun h => Or.inl h
    · rintro (h | h)
      · exact h
      · rw [h]; exact hx
  · simp [if_neg hx]

/-- `addSet` preserves duplicate-freeness. -/
theorem nodup_addSet {α : Type} [DecidableEq α] (l : List α) (x : α)
    (h : l.Nodup) : (addSet l x).Nodup := by
  unfold addSet
  by_cases hx : x ∈ l
  · simp [if_pos hx, h]
  · simp only [if_neg hx]
    rw [List.nodup_append]
    refine ⟨h, List.nodup_singleton x, ?_⟩
    intro a ha hax
    have hax' : a = x := by simpa using hax
    exact hx (hax' ▸ ha)

/-- Membership in a left fold of `addSet`. -/
theorem mem_foldl_addSet {α : Type} [DecidableEq α] (a : α) :
    ∀ (xs : List α) (init : List α),
      a ∈ xs.foldl addSet init ↔ a ∈ init ∨ a ∈ xs := by
  intro xs
  induction xs with
  | nil => intro init; simp
  | cons x rest ih =>
    intro init
    rw [List.foldl_cons, ih (addSet init x), mem_addSet]
    constructor
    · rintro ((h | h) | h)
      · exact Or.inl h
      · exact Or.inr (by rw [h]; exact List.mem_cons_self x rest)
      · exact Or.inr (List.mem_cons_of_mem x h)
    · rintro (h | h)
      · exact Or.inl (Or.inl h)
      · rcases List.mem_cons.mp h with hx | hrest
        · exact Or.inl (Or.inr hx)
        · exact Or.inr hrest

/-- A left fold of `addSet` over a duplicate-free accumulator stays
duplicate-free. -/
theorem nodup_foldl_addSet {α : Type} [DecidableEq α] :
    ∀ (xs : List α) (init : List α), init.Nodup →
      (xs.foldl addSet init).Nodup := by
  intro xs
  induction xs with
  | nil => intro init h; simpa using h
  | cons x rest ih =>
    intro init h
    rw [List.foldl_cons]
    exact ih (addSet init x) (nodup_addSet init x h)

/- ### Structural lemmas about the export loop -/

/-- Zero-based enumeration of a list starting at a given index (the Python
`enumerate` of the loop in `render_ofx`). -/
def enumIdx {α : Type} : Nat → List α → List (Nat × α)
  | _, [] => []
  | i, x :: xs => (i, x) :: enumIdx (i + 1) xs

/-- A successful `exportItem` carries exactly the claim's transaction
values: `fitid = index + 1`, `units = number`, `unit price = cost_number`,
`fee = 0`, `total = -(number * cost_number + fee)`, buy type `BUY`. -/
theorem exportItem_spec (promiscuous : Bool) (dttrade : String) (i : Nat)
    (cur : Option String) (t : Ticker) (h : Holding)
    (pr : OfxTxn × (String × String × Bool))
    (h1 : exportItem promiscuous dttrade i cur t h = some pr) :
    pr.1.fitid = i + 1 ∧ pr.1.units = h.number.getD 0 ∧
      pr.1.unitprice = h.cost_number.getD 0 ∧ pr.1.fee = 0 ∧
      pr.1.total = -(h.number.getD 0 * h.cost_number.getD 0 + 0) ∧
      pr.1.buytype = "BUY" := by
  cases cur with
  | none => simp [exportItem] at h1
  | some c =>
    cases t with
    | noCommodity => simp [exportItem] at h1
    | undef => simp [exportItem] at h1
    | val s =>
      cases hn : h.number with
      | none => simp [exportItem, hn] at h1
      | some n =>
        cases hu : h.cost_number with
        | none => simp [exportItem, hn, hu] at h1
        | some u =>
          simp only [exportItem, hn, hu] at h1
          injection h1 with h1'
          subst h1'
          simp [mkExportTxn, hn, hu]

/-- The skipped list returned by the export loop is exactly the holdings
satisfying the skip condition, in input order. -/
theorem exportLoop_skipped (tk : String → Ticker) (promiscuous : Bool)
    (dttrade : String) :
    ∀ (hs : List Holding) (i : Nat)
      (res : List (OfxTxn × (String × String × Bool)) × List Holding),
      exportLoop tk promiscuous dttrade i hs = some res →
        res.2 = hs.filter (skipHolding tk) := by
  intro hs
  induction hs with
  | nil =>
    intro i res hres
    rw [exportLoop] at hres
    cases hres
    rfl
  | cons h t ih =>
    intro i res hres
    rw [exportLoop] at hres
    by_cases hskip : skipHolding tk h = true
    · rw [if_pos hskip] at hres
      cases hrec : exportLoop tk promiscuous dttrade (i + 1) t with
      | none => rw [hrec] at hres; cases hres
      | some pr =>
        obtain ⟨ps, sk⟩ := pr
        rw [hrec] at hres
        cases hres
        rw [List.filter_cons_of_pos hskip]
        have := ih (i + 1) (ps, sk) hrec
        simpa using this
    · rw [if_neg hskip] at hres
      cases hitem : exportItem promiscuous dttrade i h.currency
          (tickerOf tk h.currency) h with
      | none => rw [hitem] at hres; cases hres
      | some pr =>
        rw [hitem] at hres
        cases hrec : exportLoop tk promiscuous dttrade (i + 1) t with
        | none => rw [hrec] at hres; cases hres
        | some qr =>
          obtain ⟨ps, sk⟩ := qr
          rw [hrec] at hres
          cases hres
          rw [List.filter_cons_of_neg hskip]
          exact ih (i + 1) (ps, sk) hrec

/-- The transactions returned by the export loop, projected to their
reported fields, are exactly one per non-skipped holding in input order,
with `fitid` one plus the zero-based input index and the claim's
units/price/fee/total values. -/
theorem exportLoop_txn_map (tk : String → Ticker) (promiscuous : Bool)
    (dttrade : String) :
    ∀ (hs : List Holding) (i : Nat)
      (res : List (OfxTxn × (String × String × Bool)) × List Holding),
      exportLoop tk promiscuous dttrade i hs = some res →
        res.1.map (fun pr => (pr.1.fitid, pr.1.units, pr.1.unitprice,
            pr.1.fee, pr.1.total, pr.1.buytype)) =
          ((enumIdx i hs).filter (fun p => !skipHolding tk p.2)).map
            (fun p => (p.1 + 1, p.2.number.getD 0, p.2.cost_number.getD 0,
              (0 : Rat),
              -(p.2.number.getD 0 * p.2.cost_number.getD 0 + 0), "BUY")) := by
  intro hs
  induction hs with
  | nil =>
    intro i res hres
    rw [exportLoop] at hres
    cases hres
    rfl
  | cons h t ih =>
    intro i res hres
    rw [exportLoop] at hres
    by_cases hskip : skipHolding tk h = true
    · rw [if_pos hskip] at hres
      cases hrec : exportLoop tk promiscuous dttrade (i + 1) t with
      | none => rw [hrec] at hres; cases hres
      | some pr =>
        obtain ⟨ps, sk⟩ := pr
        rw [hrec] at hres
        cases hres
        rw [enumIdx, List.filter_cons_of_neg (by simp [hskip])]
        exact ih (i + 1) (ps, sk) hrec
    · rw [if_neg hskip] at hres
      cases hitem : exportItem promiscuous dttrade i h.currency
          (tickerOf tk h.currency) h with
      | none => rw [hitem] at hres; cases hres
      | some pr =>
        rw [hitem] at hres
        cases hrec : exportLoop tk promiscuous dttrade (i + 1) t with
        | none => rw [hrec] at hres; cases hres
        | some qr =>
          obtain ⟨ps, sk⟩ := qr
          rw [hrec] at hres
          cases hres
          rw [enumIdx, List.filter_cons_of_pos (by simp [hskip])]
          rw [List.map_cons, List.map_cons]
          rcases exportItem_spec promiscuous dttrade i h.currency
            (tickerOf tk h.currency) h pr hitem with ⟨e1, e2, e3, e4, e5, e6⟩
          rw [e1, e2, e3, e4, e5, e6]
          exact congrArg _ (ih (i + 1) (ps, sk) hrec)

/- ### C6 theorem -/

/-- C6: in the OFX export, a holding is excluded from individual export iff
it is cash-like (`currency == cost_currency`), or its `cost_number` is
undefined, or its currency has no ticker (absent — unknown commodity or
commodity without ticker metadata — or the empty string); every other
holding produces exactly one individual buy transaction with
`units = number`, `unit price = cost_number`, `fee = 0` and
`total = -(number * cost_number + fee)`. -/
theorem c6_export_classification (tk : String → Ticker) (promiscuous : Bool)
    (dttrade : String) (hs : List Holding)
    (res : List (OfxTxn × (String × String × Bool)) × List Holding)
    (hres : exportLoop tk promiscuous dttrade 0 hs = some res) :
    (∀ h : Holding, skipHolding tk h = true ↔
      (h.currency = h.cost_currency ∨ h.cost_number = none ∨
        tickerOf tk h.currency = Ticker.noCommodity ∨
        tickerOf tk h.currency = Ticker.undef ∨
        tickerOf tk h.currency = Ticker.val "")) ∧
    res.2 = hs.filter (skipHolding tk) ∧
    res.1.map (fun pr => (pr.1.fitid, pr.1.units, pr.1.unitprice,
        pr.1.fee, pr.1.total, pr.1.buytype)) =
      ((enumIdx 0 hs).filter (fun p => !skipHolding tk p.2)).map
        (fun p => (p.1 + 1, p.2.number.getD 0, p.2.cost_number.getD 0,
          (0 : Rat), -(p.2.number.getD 0 * p.2.cost_number.getD 0 + 0),
          "BUY")) := by
  refine ⟨?_, exportLoop_skipped tk promiscuous dttrade hs 0 res hres,
    exportLoop_txn_map tk promiscuous dttrade hs 0 res hres⟩
  intro h
  unfold skipHolding
  cases ht : tickerOf tk h.currency with
  | noCommodity => simp [ht]
  | undef => simp [ht]
  | val s =>
    by_cases hcc : h.currency = h.cost_currency
    · simp [ht, hcc]
    · cases hcn : h.cost_number with
      | none => simp [ht, hcc, hcn]
      | some q => simp [ht, hcc, hcn]

/-- The ticker map of the C6/C10 witness inputs: commodity `HOO` has ticker
`HOO`, commodity `USD` exists without ticker metadata, everything else is
unknown. -/
def tkW (c : String) : Ticker :=
  if c = "HOO" then Ticker.val "HOO"
  else if c = "USD" then Ticker.undef
  else Ticker.noCommodity

/-- Witness cash-like holding: currency equals cost currency, so it is
skipped. -/
def cashHW : Holding :=
  ⟨some "Assets:Cash", some 100, some "USD", some "USD", some 1, some 1,
    some 100, some 100, none⟩

/-- Witness stock holding: ticker `HOO`, cost defined, individually
exported. -/
def stockHW : Holding :=
  ⟨some "Assets:Inv", some 2, some "HOO", some "USD", some 3, some 4,
    some 6, some 8, none⟩

/-- C6 witness: on the concrete two-holding input, `exportLoop` succeeds and
the conclusions of `c6_export_classification` hold; in particular the
skipped list is the cash-like holding alone. -/
theorem c6_export_classification_witness :
    (([(⟨"BUYSTOCK", 2, "DT", "", "HOO", 2, 3, 0, -6, "BUY"⟩,
        ("HOO", "HOO", false))], [cashHW]) :
      List (OfxTxn × (String × String × Bool)) × List Holding).2 =
      [cashHW, stockHW].filter (skipHolding tkW) :=
  (c6_export_classification tkW false "DT" [cashHW, stockHW] _
    (by
      simp [exportLoop, exportItem, skipHolding, tickerOf, mkExportTxn,
        cashHW, stockHW, tkW, is_mutual_fund]
      norm_num)).2.1

/- ### C10 theorem -/

/-- The last element of a nonempty list appears in its enumeration with
index `start + length - 1`. -/
theorem enumIdx_getLast {α : Type} :
    ∀ (hs : List α) (hne : hs ≠ []) (i : Nat),
      (i + (hs.length - 1), hs.getLast hne) ∈ enumIdx i hs := by
  intro hs
  induction hs with
  | nil => intro hne; exact absurd rfl hne
  | cons x t ih =>
    intro hne i
    cases t with
    | nil => simp [enumIdx, List.getLast]
    | cons y tt =>
      have htne : (y :: tt) ≠ [] := by simp
      have hlast : (x :: y :: tt).getLast hne = (y :: tt).getLast htne :=
        List.getLast_cons htne
      have hidx : i + ((x :: y :: tt).length - 1)
          = (i + 1) + ((y :: tt).length - 1) := by
        simp [List.length_cons]
        omega
      rw [enumIdx, hlast, hidx]
      exact List.mem_cons_of_mem _ (ih htne (i + 1))

/-- C10: each individually exported transaction's FITID is one plus the
zero-based index of its holding in the full input list (including skipped
holdings); the cash-equivalent transaction's FITID is one plus the index of
the last input holding (or 1 for an empty input); consequently, whenever the
final input holding is individually exported and a cash-equivalent
transaction is emitted, some individually exported transaction shares the
cash-equivalent's FITID, so FITIDs are not always distinct. -/
theorem c10_fitid_scheme (tk : String → Ticker) (promiscuous : Bool)
    (dttrade : String) (pm : String → String → Option Rat)
    (operating : List String) (quantize : Rat → String → Rat)
    (hs : List Holding) (d : OfxData)
    (hd : renderOfxData tk promiscuous dttrade pm operating quantize hs
      = some d) :
    (d.exportPairs.map (fun pr => pr.1.fitid) =
      ((enumIdx 0 hs).filter (fun p => !skipHolding tk p.2)).map
        (fun p => p.1 + 1)) ∧
    (∀ ct, d.cashTxn = some ct →
      (hs ≠ [] → ct.fitid = hs.length) ∧ (hs = [] → ct.fitid = 1)) ∧
    (∀ ct, d.cashTxn = some ct → ∀ hne : hs ≠ [],
      skipHolding tk (hs.getLast hne) = false →
      ∃ pr ∈ d.exportPairs, pr.1.fitid = ct.fitid) := by
  have hfit : ∀ (pairs : List (OfxTxn × (String × String × Bool)))
      (skipped : List Holding),
      exportLoop tk promiscuous dttrade 0 hs = some (pairs, skipped) →
      pairs.map (fun pr => pr.1.fitid) =
        ((enumIdx 0 hs).filter (fun p => !skipHolding tk p.2)).map
          (fun p => p.1 + 1) := by
    intro pairs skipped hloop
    have hm := exportLoop_txn_map tk promiscuous dttrade hs 0
      (pairs, skipped) hloop
    have hproj := congrArg
      (List.map (fun x : Nat × Rat × Rat × Rat × Rat × String => x.1)) hm
    rw [List.map_map, List.map_map] at hproj
    exact hproj
  rw [renderOfxData] at hd
  cases hloop : exportLoop tk promiscuous dttrade 0 hs with
  | none => rw [hloop] at hd; cases hd
  | some pr =>
    obtain ⟨pairs, skipped⟩ := pr
    rw [hloop] at hd
    cases operating with
    | nil =>
      cases hd
      refine ⟨hfit pairs skipped hloop, ?_, ?_⟩
      · intro ct hct; cases hct
      · intro ct hct; cases hct
    | cons cash_currency rest =>
      simp only at hd
      cases hbook : strictSum ((convert_to_currency pm cash_currency
          skipped).filter (fun h => h.cost_currency == some cash_currency)
            |>.map (fun h => h.book_value)) with
      | none => rw [hbook] at hd; cases hd
      | some book_value =>
        cases hmarket : strictSum ((convert_to_currency pm cash_currency
            skipped).filter (fun h => h.cost_currency == some cash_currency)
              |>.map (fun h => h.market_value)) with
        | none => rw [hbook, hmarket] at hd; cases hd
        | some market_value =>
          rw [hbook, hmarket] at hd
          simp only [] at hd
          cases hdiv : safeDiv book_value market_value with
          | none => rw [hdiv] at hd; cases hd
          | some ratio =>
            rw [hdiv] at hd
            cases hd
            refine ⟨hfit pairs skipped hloop, ?_, ?_⟩
            · intro ct hct
              cases hct
              constructor
              · intro hne
                have : hs.length ≠ 0 := by
                  simpa using List.length_pos.mpr hne |>.ne.symm
                simp only [OfxData.cashTxn]
                rw [if_neg this]
                omega
              · intro hnil
                subst hnil
                rfl
            · intro ct hct hne hlastskip
              cases hct
              have hmem0 : (0 + (hs.length - 1), hs.getLast hne)
                  ∈ enumIdx 0 hs := enumIdx_getLast hs hne 0
              have hmemf : (0 + (hs.length - 1), hs.getLast hne)
                  ∈ (enumIdx 0 hs).filter
                    (fun p => !skipHolding tk p.2) := by
                apply List.mem_filter.mpr
                exact ⟨hmem0, by simp [hlastskip]⟩
              have hmemmap : (0 + (hs.length - 1)) + 1
                  ∈ ((enumIdx 0 hs).filter
                    (fun p => !skipHolding tk p.2)).map
                      (fun p => p.1 + 1) :=
                List.mem_map_of_mem _ hmemf
              rw [← hfit pairs skipped hloop] at hmemmap
              rcases List.mem_map.mp hmemmap with ⟨pr, hpr, hprfit⟩
              refine ⟨pr, hpr, ?_⟩
              rw [hprfit]
              have : hs.length ≠ 0 := by
                simpa using List.length_pos.mpr hne |>.ne.symm
              simp only
              rw [if_neg this]
              omega

/-- The OFX data computed on the C10 witness input `[cashHW, stockHW]` with
operating currency `USD`: the stock is exported with FITID 2, the cash-like
holding is skipped and folded into the cash-equivalent transaction, whose
FITID is also 2. -/
def w10Data : OfxData :=
  ⟨[(⟨"BUYSTOCK", 2, "DT", "", "HOO", 2, 3, 0, -6, "BUY"⟩,
      ("HOO", "HOO", false))],
    [cashHW],
    some ⟨"BUYMF", 2, "DT", "", "VMMXX", 100, 1, 0, -100, "BUY"⟩,
    [("HOO", "HOO", false), ("VMMXX", "VMMXX", false)],
    [("HOO", "HOO", false), ("VMMXX", "VMMXX", false)]⟩

/-- C10 witness: on the concrete input the export succeeds, the final input
holding is individually exported with FITID 2, a cash-equivalent transaction
is emitted with FITID 2, and indeed some exported transaction shares the
cash-equivalent's FITID. -/
theorem c10_fitid_scheme_witness :
    ∃ pr ∈ w10Data.exportPairs, pr.1.fitid = 2 := by
  have h := c10_fitid_scheme tkW false "DT" (fun _ _ => none) ["USD"]
    (fun x _ => x) [cashHW, stockHW] w10Data
    (by
      simp [renderOfxData, exportLoop, exportItem, skipHolding, tickerOf,
        mkExportTxn, convert_to_currency, convertOne, strictSum, safeDiv,
        addSet, isort, sortedInsert, tripleLeB, CASH_EQUIVALENT_CURRENCY,
        CASH_EQUIVALENT_MFUND, cashHW, stockHW, tkW, is_mutual_fund, w10Data]
      norm_num
      decide)
  exact h.2.2 ⟨"BUYMF", 2, "DT", "", "VMMXX", 100, 1, 0, -100, "BUY"⟩ rfl
    (by simp) (by decide)

/- ### C5 theorems -/

/-- C5 counterexample: the claim says the security list records the
`(currency, ticker, mutual_fund)` triple of every synthesized transaction,
the cash-equivalent's triple reflecting the mutual-fund classification used
for its transaction type.  On a single skipped cash-like holding with an
operating currency, the cash-equivalent transaction is emitted with type
`BUYMF` (mutual fund, per `CASH_EQUIVALENT_MFUND = True`), yet the security
list records `("VMMXX", "VMMXX", false)` — the hardcoded non-mutual-fund
triple of holdings_reports.py:573-575 — and not the triple with
`mutual_fund = true` that the claim requires. -/
theorem c5_cash_security_flag_mismatch :
    (renderOfxData tkW false "DT" (fun _ _ => none) ["USD"] (fun x _ => x)
        [cashHW]).map
      (fun d => (d.securities, d.cashTxn.map (fun t => t.txntype)))
      = some ([("VMMXX", "VMMXX", false)], some "BUYMF") := by
  simp [renderOfxData, exportLoop, exportItem, skipHolding, tickerOf,
    mkExportTxn, convert_to_currency, convertOne, strictSum, safeDiv,
    addSet, isort, sortedInsert, tripleLeB, CASH_EQUIVALENT_CURRENCY,
    CASH_EQUIVALENT_MFUND, cashHW, tkW]

/-- C5 (amended): the rendered security list is exactly the set of distinct
`(currency, ticker, mutual_fund)` triples of the individually exported
transactions, plus — when the cash-equivalent transaction is emitted — the
fixed triple `(VMMXX, VMMXX, false)`, whose mutual-fund flag is hardcoded
false even though the cash-equivalent transaction type is the mutual-fund
buy `BUYMF`; the list is duplicate-free and sorted by currency. -/
theorem c5_security_list (tk : String → Ticker) (promiscuous : Bool)
    (dttrade : String) (pm : String → String → Option Rat)
    (operating : List String) (quantize : Rat → String → Rat)
    (hs : List Holding) (d : OfxData)
    (hd : renderOfxData tk promiscuous dttrade pm operating quantize hs
      = some d) :
    (∀ tr : String × String × Bool,
      tr ∈ d.securities ↔ (tr ∈ d.exportPairs.map (fun pr => pr.2) ∨
        (d.cashTxn.isSome = true ∧ tr = ("VMMXX", "VMMXX", false)))) ∧
    d.securities.Nodup ∧
    d.securities.Pairwise (fun a b => a.1 ≤ b.1) ∧
    (∀ ct, d.cashTxn = some ct → ct.txntype = "BUYMF") := by
  have hpair : ∀ l : List (String × String × Bool),
      (isort tripleLeB l).Pairwise
        (fun a b : String × String × Bool => a.1 ≤ b.1) :=
    fun l => (isort_pairwise tripleLeB tripleLeB_total tripleLeB_trans
      l).imp (fun h => tripleLeB_currency h)
  rw [renderOfxData] at hd
  cases hloop : exportLoop tk promiscuous dttrade 0 hs with
  | none => rw [hloop] at hd; cases hd
  | some pr =>
    obtain ⟨pairs, skipped⟩ := pr
    rw [hloop] at hd
    cases operating with
    | nil =>
      cases hd
      refine ⟨?_, ?_, hpair _, ?_⟩
      · intro tr
        rw [mem_isort, mem_foldl_addSet]
        simp
      · exact nodup_isort _ _ (nodup_foldl_addSet _ [] List.nodup_nil)
      · intro ct hct; cases hct
    | cons cash_currency rest =>
      simp only at hd
      cases hbook : strictSum ((convert_to_currency pm cash_currency
          skipped).filter (fun h => h.cost_currency == some cash_currency)
            |>.map (fun h => h.book_value)) with
      | none => rw [hbook] at hd; cases hd
      | some book_value =>
        cases hmarket : strictSum ((convert_to_currency pm cash_currency
            skipped).filter (fun h => h.cost_currency == some cash_currency)
              |>.map (fun h => h.market_value)) with
        | none => rw [hbook, hmarket] at hd; cases hd
        | some market_value =>
          rw [hbook, hmarket] at hd
          simp only [] at hd
          cases hdiv : safeDiv book_value market_value with
          | none => rw [hdiv] at hd; cases hd
          | some ratio =>
            rw [hdiv] at hd
            cases hd
            refine ⟨?_, ?_, hpair _, ?_⟩
            · intro tr
              rw [mem_isort, mem_addSet, mem_foldl_addSet]
              simp [CASH_EQUIVALENT_CURRENCY]
            · exact nodup_isort _ _ (nodup_addSet _ _
                (nodup_foldl_addSet _ [] List.nodup_nil))
            · intro ct hct
              cases hct
              simp [CASH_EQUIVALENT_MFUND]

/-- The OFX data computed on the C5 witness input `[stockHW]` with no
operating currency: one exported transaction, no cash-equivalent, one
security triple. -/
def w5Data : OfxData :=
  ⟨[(⟨"BUYSTOCK", 1, "DT", "", "HOO", 2, 3, 0, -6, "BUY"⟩,
      ("HOO", "HOO", false))],
    [], none, [("HOO", "HOO", false)], [("HOO", "HOO", false)]⟩

/-- C5 witness: the amended security-list theorem applies at the concrete
one-holding input; in particular its security list is duplicate-free. -/
theorem c5_security_list_witness : w5Data.securities.Nodup :=
  (c5_security_list tkW false "DT" (fun _ _ => none) [] (fun x _ => x)
    [stockHW] w5Data
    (by
      simp [renderOfxData, exportLoop, exportItem, skipHolding, tickerOf,
        mkExportTxn, addSet, isort, sortedInsert, tkW, stockHW,
        is_mutual_fund, w5Data]
      norm_num)).2.1

/- ### OFX document assembly (holdings_reports.py:364-466 and 589-599) -/

/-- The plaintext preamble block `PREFIX` (holdings_reports.py:364-375),
after `textwrap.dedent`: nine header lines followed by a blank line. -/
def HEADER_PREAMBLE : String :=
  "OFXHEADER:100\nDATA:OFXSGML\nVERSION:102\nSECURITY:NONE\nENCODING:USASCII\nCHARSET:1252\nCOMPRESSION:NONE\nOLDFILEUID:NONE\nNEWFILEUID:NONE\n\n"

/-- The root `TEMPLATE` (holdings_reports.py:377-417) after
`textwrap.dedent`, with its eight placeholders substituted
(`dtserver`, `dtasof`, `broker`, `account`, `dtstart`, `dtend`,
`invtranlist`, `seclist`). -/
def TEMPLATE_fill (dtserver dtasof broker account dtstart dtend
    invtranlist seclist : String) : String :=
  "\n<OFX>\n  <SIGNONMSGSRSV1>\n    <SONRS>\n      <STATUS>\n        <CODE>0\n        <SEVERITY>INFO\n      </STATUS>\n      <DTSERVER>"
    ++ dtserver ++
  "\n      <LANGUAGE>ENG\n    </SONRS>\n  </SIGNONMSGSRSV1>\n  <INVSTMTMSGSRSV1>\n    <INVSTMTTRNRS>\n      <TRNUID>1001\n      <STATUS>\n        <CODE>0\n        <SEVERITY>INFO\n      </STATUS>\n      <INVSTMTRS>\n        <DTASOF>"
    ++ dtasof ++
  "\n        <CURDEF>USD\n        <INVACCTFROM>\n          <BROKERID>"
    ++ broker ++
  "\n          <ACCTID>"
    ++ account ++
  "\n        </INVACCTFROM>\n        <INVTRANLIST>\n          <DTSTART>"
    ++ dtstart ++
  "\n          <DTEND>"
    ++ dtend ++
  "\n          "
    ++ invtranlist ++
  "\n        </INVTRANLIST>\n      </INVSTMTRS>\n    </INVSTMTTRNRS>\n  </INVSTMTMSGSRSV1>\n  <SECLISTMSGSRSV1>\n    <SECLIST>\n     "
    ++ seclist ++
  "\n    </SECLIST>\n  </SECLISTMSGSRSV1>\n</OFX>\n"

/-- The `TRANSACTION` template (holdings_reports.py:419-440) after
`textwrap.dedent`, with its placeholders substituted from an `OfxTxn`.
`showNum` renders a decimal to its Python string form (the `Decimal`
`str()`, external to this module). -/
def TRANSACTION_fill (showNum : Rat → String) (t : OfxTxn) : String :=
  "\n<" ++ t.txntype ++
  ">\n  <INVBUY>\n    <INVTRAN>\n      <FITID>" ++ toString t.fitid ++
  "\n      <DTTRADE>" ++ t.dttrade ++
  "\n      <MEMO>" ++ t.memo ++
  "\n    </INVTRAN>\n    <SECID>\n      <UNIQUEID>" ++ t.uniqueid ++
  "\n      <UNIQUEIDTYPE>TICKER\n    </SECID>\n    <UNITS>" ++ showNum t.units ++
  "\n    <UNITPRICE>" ++ showNum t.unitprice ++
  "\n    <COMMISSION>" ++ showNum t.fee ++
  "\n    <TOTAL>" ++ showNum t.total ++
  "\n    <SUBACCTSEC>CASH\n    <SUBACCTFUND>CASH\n  </INVBUY>\n  <BUYTYPE>" ++ t.buytype ++
  "\n</" ++ t.txntype ++ ">\n"

/-- The `SECURITY` template (holdings_reports.py:455-466) after
`textwrap.dedent`, with its placeholders substituted from a
`(currency, ticker, mutual_fund)` triple: `infotype` is `MFINFO` or
`STOCKINFO`, `uniqueid` and `secname` are the currency
(holdings_reports.py:582-585). -/
def SECURITY_fill (tr : String × String × Bool) : String :=
  "\n<" ++ (if tr.2.2 then "MFINFO" else "STOCKINFO") ++
  ">\n  <SECINFO>\n    <SECID>\n      <UNIQUEID>" ++ tr.1 ++
  "\n      <UNIQUEIDTYPE>TICKER\n    </SECID>\n    <SECNAME>" ++ tr.1 ++
  "\n    <TICKER>" ++ tr.2.1 ++
  "\n  </SECINFO>\n</" ++ (if tr.2.2 then "MFINFO" else "STOCKINFO") ++ ">\n"

/-- The final cleanup of `render_ofx` (holdings_reports.py:596-598):
`'\n'.join(line.lstrip() for line in contents.splitlines() if
line.strip())` — every blank or pure-whitespace line removed, every
remaining line left-trimmed. -/
def stripJoin (s : String) : String :=
  String.intercalate "\n"
    (((s.splitOn "\n").filter (fun l => !(l.trim == ""))).map
      (fun l => l.trimLeft))

/-- `render_ofx` (holdings_reports.py:483-599): the transaction data is
computed by `renderOfxData`; the transaction list string is the
concatenation of the rendered transactions in encounter order (the
individually exported ones, then the cash-equivalent); the security list
string is the concatenation of the sorted security triples; the root
template is filled with `broker = Beancount`, `account` = the title when
promiscuous else empty, and the four date fields all the rendered morning
timestamp; the written document is the preamble followed by the
blank-stripped, left-trimmed filled template. -/
def render_ofx (showNum : Rat → String) (tk : String → Ticker)
    (promiscuous : Bool) (title : String) (dtnow dttrade : String)
    (pm : String → String → Option Rat) (operating : List String)
    (quantize : Rat → String → Rat) (hs : List Holding) : Option String :=
  match renderOfxData tk promiscuous dttrade pm operating quantize hs with
  | none => none
  | some d =>
    let invtranlist := String.join
      ((d.exportPairs.map (fun pr => TRANSACTION_fill showNum pr.1)) ++
        (d.cashTxn.toList.map (TRANSACTION_fill showNum)))
    let seclist := String.join (d.securities.map SECURITY_fill)
    let broker := "Beancount"
    let account := if promiscuous then title else ""
    some (HEADER_PREAMBLE ++ stripJoin
      (TEMPLATE_fill dtnow dtnow broker account dtnow dtnow invtranlist
        seclist))

/-- Helper: in any successful export the security list is sorted (it is the
insertion sort of the collected commodity set). -/
theorem renderOfxData_securities_sorted (tk : String → Ticker)
    (promiscuous : Bool) (dttrade : String)
    (pm : String → String → Option Rat) (operating : List String)
    (quantize : Rat → String → Rat) (hs : List Holding) (d : OfxData)
    (hd : renderOfxData tk promiscuous dttrade pm operating quantize hs
      = some d) :
    d.securities.Pairwise (fun a b => a.1 ≤ b.1) := by
  have hpair : ∀ l : List (String × String × Bool),
      (isort tripleLeB l).Pairwise
        (fun a b : String × String × Bool => a.1 ≤ b.1) :=
    fun l => (isort_pairwise tripleLeB tripleLeB_total tripleLeB_trans
      l).imp (fun h => tripleLeB_currency h)
  rw [renderOfxData] at hd
  cases hloop : exportLoop tk promiscuous dttrade 0 hs with
  | none => rw [hloop] at hd; cases hd
  | some pr =>
    obtain ⟨pairs, skipped⟩ := pr
    rw [hloop] at hd
    cases operating with
    | nil =>
      cases hd
      exact hpair _
    | cons cash_currency rest =>
      simp only at hd
      cases hbook : strictSum ((convert_to_currency pm cash_currency
          skipped).filter (fun h => h.cost_currency == some cash_currency)
            |>.map (fun h => h.book_value)) with
      | none => rw [hbook] at hd; cases hd
      | some book_value =>
        cases hmarket : strictSum ((convert_to_currency pm cash_currency
            skipped).filter (fun h => h.cost_currency == some cash_currency)
              |>.map (fun h => h.market_value)) with
        | none => rw [hbook, hmarket] at hd; cases hd
        | some market_value =>
          rw [hbook, hmarket] at hd
          simp only [] at hd
          cases hdiv : safeDiv book_value market_value with
          | none => rw [hdiv] at hd; cases hd
          | some ratio =>
            rw [hdiv] at hd
            cases hd
            exact hpair _

/- ### C9 theorem -/

/-- C9: the rendered OFX document is exactly the fixed plaintext preamble
followed by the filled-in root template with every blank or pure-whitespace
line removed and every remaining line left-trimmed; the transaction list is
the concatenation, in encounter order, of the individually exported
transactions followed by the cash-equivalent (when present), and the
security list used is sorted by currency on every successful export. -/
theorem c9_document_structure :
    (∀ (showNum : Rat → String) (tk : String → Ticker) (promiscuous : Bool)
        (title dtnow dttrade : String) (pm : String → String → Option Rat)
        (operating : List String) (quantize : Rat → String → Rat)
        (hs : List Holding),
      render_ofx showNum tk promiscuous title dtnow dttrade pm operating
          quantize hs =
        (renderOfxData tk promiscuous dttrade pm operating quantize
            hs).map
          (fun d => HEADER_PREAMBLE ++ stripJoin
            (TEMPLATE_fill dtnow dtnow "Beancount"
              (if promiscuous then title else "") dtnow dtnow
              (String.join
                ((d.exportPairs.map
                  (fun pr => TRANSACTION_fill showNum pr.1)) ++
                  (d.cashTxn.toList.map (TRANSACTION_fill showNum))))
              (String.join (d.securities.map SECURITY_fill))))) ∧
    (∀ (tk : String → Ticker) (promiscuous : Bool) (dttrade : String)
        (pm : String → String → Option Rat) (operating : List String)
        (quantize : Rat → String → Rat) (hs : List Holding),
      (renderOfxData tk promiscuous dttrade pm operating quantize hs).elim
        True
        (fun d => d.securities.Pairwise (fun a b => a.1 ≤ b.1))) := by
  constructor
  · intro showNum tk promiscuous title dtnow dttrade pm operating quantize hs
    cases h : renderOfxData tk promiscuous dttrade pm operating quantize hs with
    | none => simp [render_ofx, h]
    | some d => simp [render_ofx, h]
  · intro tk promiscuous dttrade pm operating quantize hs
    cases h : renderOfxData tk promiscuous dttrade pm operating quantize hs with
    | none => simp
    | some d =>
      simp only [Option.elim]
      exact renderOfxData_securities_sorted tk promiscuous dttrade pm
        operating quantize hs d h
